import Mathlib

/-!
Shallow embedding of the MAC wrapping layer of `go/mac/mac_factory.go`
(package `mac` of the tink repository), together with a model of its
collaborators `primitiveset.PrimitiveSet` and `cryptofmt.NonRawPrefixSize`,
which are not part of the sources given; those collaborators are modelled
from the specification, as indicated on each definition.

Conventions of the embedding:
  * Go byte slices are `List Nat`.
  * A Go `error` result becomes `Except ε α`; a `nil` error is `.ok`.
  * Distinct Go error values created by the factory are distinct
    constructors of `MacError`; an error propagated from an underlying
    primitive is wrapped in the injective constructor `MacError.underlying`,
    mirroring the fact that a Go error value returned by a primitive is
    never the same value as one of the factory's own errors.
  * The process-wide flag `enable_compute_old_legacy_mac` is passed to
    `ComputeMAC` as an explicit boolean argument (the Go code reads it from
    a global at each call); its default value is recorded separately.
-/

/-- The Go enum `tinkpb.OutputPrefixType` (values used by this package). -/
inductive OutputPrefixType where
  | RAW
  | TINK
  | LEGACY
  | CRUNCHY
deriving DecidableEq

/-- The `tink.MAC` interface: `ComputeMAC(data) ([]byte, error)` and
`VerifyMAC(mac, data []byte) error`. Underlying primitive errors are plain
strings. -/
structure MAC where
  ComputeMAC : List Nat → Except String (List Nat)
  VerifyMAC : List Nat → List Nat → Except String Unit

/-- A primitive stored in an entry: Go stores it as `interface{}`; the
dynamic type assertion `(p).(tink.MAC)` succeeds exactly on the `.mac`
constructor. -/
inductive TinkPrimitive where
  | mac (m : MAC)
  | other (name : String)

/-- The Go type assertion `(p).(tink.MAC)`: `some` of the MAC when the
assertion succeeds, `none` otherwise. -/
def asMAC : TinkPrimitive → Option MAC
  | .mac m => some m
  | .other _ => none

/-- Modelled from the spec: a `primitiveset.Entry` (the fields this package
reads): the primitive handle, the output-prefix bytes (`Prefix` in Go,
renamed `Pfx` here), and the output-prefix type. -/
structure Entry where
  Primitive : TinkPrimitive
  Pfx : List Nat
  PfxType : OutputPrefixType

/-- Modelled from the spec: `primitiveset.PrimitiveSet` — a designated
primary entry plus the prefix index `Entries`, a mapping from prefix bytes
to the ordered list of entries sharing that prefix (an association list,
preserving insertion order). RAW entries are stored under the empty raw
prefix. -/
structure PrimitiveSet where
  Primary : Entry
  Entries : List (List Nat × List Entry)

/-- Modelled from the spec: `cryptofmt.NonRawPrefixSize`, the fixed width
of every non-raw output prefix (5 bytes in the wire format: one format
byte plus a 4-byte key id). -/
def NonRawPfxSize : Nat := 5

/-- Modelled from the spec: `cryptofmt.RawPrefix`, the empty prefix under
which RAW entries are indexed. -/
def RawPfx : List Nat := []

/-- Association-list lookup over the prefix index: the ordered entry list
stored under `pfx`, or `[]` when the prefix is unknown. -/
def findEntries : List (List Nat × List Entry) → List Nat → List Entry
  | [], _ => []
  | pr :: rest, pfx => if pr.1 = pfx then pr.2 else findEntries rest pfx

/-- Modelled from the spec: `PrimitiveSet.EntriesForPrefix` — a pure lookup
with no error path beyond the empty result. -/
def PrimitiveSet.EntriesForPfx (ps : PrimitiveSet) (pfx : List Nat) : List Entry :=
  findEntries ps.Entries pfx

/-- Modelled from the spec: `PrimitiveSet.RawEntries` — the ordered RAW
entries, i.e. the entries indexed under the raw (empty) prefix. -/
def PrimitiveSet.RawEntries (ps : PrimitiveSet) : List Entry :=
  ps.EntriesForPfx RawPfx

/-- The distinct error values created by `mac_factory.go`, plus the
embedding of errors propagated from an underlying primitive. -/
inductive MacError where
  | notAMAC
  | notAnMAC
  | legacyDisabled
  | invalidMAC
  | underlying (e : String)
deriving DecidableEq

/-- The package-level variable `errInvalidMAC = fmt.Errorf("mac_factory: invalid mac")`:
a single value, returned by every verification-failure path. -/
def errInvalidMAC : MacError := .invalidMAC

/-- The `wrappedMAC` struct: a MAC implementation holding the primitive set. -/
structure wrappedMAC where
  ps : PrimitiveSet

/-- `newWrappedMAC`: fails when the primary's primitive, or any entry's
primitive anywhere in the set, is not a `tink.MAC`; otherwise wraps the set. -/
def newWrappedMAC (ps : PrimitiveSet) : Except MacError wrappedMAC :=
  if (asMAC ps.Primary.Primitive).isNone then
    .error .notAMAC
  else if ps.Entries.any (fun pr => pr.2.any (fun e => (asMAC e.Primitive).isNone)) then
    .error .notAnMAC
  else
    .ok ⟨ps⟩

/-- Default value of the flag `enable_compute_old_legacy_mac`
(`flag.Bool("enable_compute_old_legacy_mac", true, ...)`). -/
def enableComputeOldLegacyMacDefault : Bool := true

/-- `wrappedMAC.ComputeMAC`, with the process-wide legacy flag passed
explicitly. -/
def wrappedMAC.ComputeMAC (m : wrappedMAC) (enableOldLegacyMac : Bool)
    (data : List Nat) : Except MacError (List Nat) :=
  let primary := m.ps.Primary
  match asMAC primary.Primitive with
  | none => .error .notAMAC
  | some primitive =>
    if primary.PfxType = OutputPrefixType.LEGACY ∧ enableOldLegacyMac = false then
      .error .legacyDisabled
    else
      match primitive.ComputeMAC data with
      | .error e => .error (.underlying e)
      | .ok mac => .ok (primary.Pfx ++ mac)

/-- One verification loop of `wrappedMAC.VerifyMAC`: try each entry in
order; fail hard when an entry is not a MAC primitive; `.ok true` on the
first entry whose `VerifyMAC` succeeds; `.ok false` when the list is
exhausted without a success. -/
def verifyLoop : List Entry → List Nat → List Nat → Except MacError Bool
  | [], _, _ => .ok false
  | e :: rest, tag, data =>
    match asMAC e.Primitive with
    | none => .error .notAnMAC
    | some p =>
      match p.VerifyMAC tag data with
      | .ok _ => .ok true
      | .error _ => verifyLoop rest tag data

/-- `wrappedMAC.VerifyMAC`: reject tags of length at most
`NonRawPrefixSize`; otherwise try the entries registered under the tag's
prefix on the truncated body, then fall back to the RAW entries on the
full tag; return `errInvalidMAC` when nothing verifies. -/
def wrappedMAC.VerifyMAC (m : wrappedMAC) (mac data : List Nat) :
    Except MacError Unit :=
  if mac.length ≤ NonRawPfxSize then .error errInvalidMAC
  else
    match verifyLoop (m.ps.EntriesForPfx (mac.take NonRawPfxSize))
        (mac.drop NonRawPfxSize) data with
    | .error e => .error e
    | .ok true => .ok ()
    | .ok false =>
      match verifyLoop m.ps.RawEntries mac data with
      | .error e => .error e
      | .ok true => .ok ()
      | .ok false => .error errInvalidMAC

/-- Every entry reachable through the prefix index is a MAC primitive:
the property `newWrappedMAC` checks at construction. -/
def allMAC (ps : PrimitiveSet) : Prop :=
  ∀ pr ∈ ps.Entries, ∀ e ∈ pr.2, (asMAC e.Primitive).isSome = true

instance : DecidablePred allMAC := fun ps =>
  inferInstanceAs (Decidable (∀ pr ∈ ps.Entries, ∀ e ∈ pr.2, (asMAC e.Primitive).isSome = true))

/-! ### Concrete primitive sets used as test inputs -/

/-- A toy RAW-type MAC primitive: every data maps to the 1-byte tag `[7]`,
and exactly that tag verifies. -/
def rawMAC1 : MAC :=
  { ComputeMAC := fun _ => .ok [7]
  , VerifyMAC := fun tag _ => if tag = [7] then .ok () else .error "bad tag" }

/-- A RAW entry holding `rawMAC1` (empty output prefix). -/
def rawEntry1 : Entry :=
  { Primitive := .mac rawMAC1, Pfx := [], PfxType := .RAW }

/-- A primitive set whose only (and primary) entry is the RAW entry. -/
def rawOnlySet : PrimitiveSet :=
  { Primary := rawEntry1, Entries := [([], [rawEntry1])] }

/-- A toy TINK-type MAC primitive: every data maps to the tag `[9, 9]`. -/
def tinkMAC1 : MAC :=
  { ComputeMAC := fun _ => .ok [9, 9]
  , VerifyMAC := fun tag _ => if tag = [9, 9] then .ok () else .error "bad tag" }

/-- A TINK entry with the 5-byte output prefix `[1, 0, 0, 0, 2]`. -/
def tinkEntry1 : Entry :=
  { Primitive := .mac tinkMAC1, Pfx := [1, 0, 0, 0, 2], PfxType := .TINK }

/-- A primitive set whose only (and primary) entry is the TINK entry. -/
def tinkSet : PrimitiveSet :=
  { Primary := tinkEntry1, Entries := [([1, 0, 0, 0, 2], [tinkEntry1])] }

/-- A toy LEGACY-type MAC primitive: every data maps to the tag `[8, 8]`. -/
def legacyMAC1 : MAC :=
  { ComputeMAC := fun _ => .ok [8, 8]
  , VerifyMAC := fun tag _ => if tag = [8, 8] then .ok () else .error "bad tag" }

/-- A LEGACY entry with the 5-byte output prefix `[0, 0, 0, 0, 3]`. -/
def legacyEntry1 : Entry :=
  { Primitive := .mac legacyMAC1, Pfx := [0, 0, 0, 0, 3], PfxType := .LEGACY }

/-- A primitive set whose only (and primary) entry is the LEGACY entry. -/
def legacySet : PrimitiveSet :=
  { Primary := legacyEntry1, Entries := [([0, 0, 0, 0, 3], [legacyEntry1])] }

/-- A primitive set whose primary does not expose the MAC capability. -/
def badSet : PrimitiveSet :=
  { Primary := { Primitive := .other "aead", Pfx := [], PfxType := .RAW }
  , Entries := [] }

/-! ### Helper lemmas -/

theorem findEntries_subset {m : List (List Nat × List Entry)} {P : Entry → Prop}
    (h : ∀ pr ∈ m, ∀ e ∈ pr.2, P e) (pfx : List Nat) :
    ∀ e ∈ findEntries m pfx, P e := by
  induction m with
  | nil => intro e he; simp [findEntries] at he
  | cons hd tl ih =>
    intro e he
    simp only [findEntries] at he
    by_cases hk : hd.1 = pfx
    · rw [if_pos hk] at he
      exact h hd (List.mem_cons_self _ _) e he
    · rw [if_neg hk] at he
      exact ih (fun pr hpr => h pr (List.mem_cons_of_mem _ hpr)) e he

theorem EntriesForPfx_allMAC {ps : PrimitiveSet} (hM : allMAC ps) (pfx : List Nat) :
    ∀ e ∈ ps.EntriesForPfx pfx, (asMAC e.Primitive).isSome = true :=
  findEntries_subset hM pfx

theorem verifyLoop_ok_iff {entries : List Entry} {tag data : List Nat}
    (hM : ∀ e ∈ entries, (asMAC e.Primitive).isSome = true) :
    verifyLoop entries tag data = .ok true ↔
      ∃ e ∈ entries, ∃ p, asMAC e.Primitive = some p ∧ p.VerifyMAC tag data = .ok () := by
  induction entries with
  | nil => simp [verifyLoop]
  | cons e0 rest ih =>
    obtain ⟨p0, hp0⟩ := Option.isSome_iff_exists.mp (hM e0 (List.mem_cons_self _ _))
    have ihr := ih (fun e he => hM e (List.mem_cons_of_mem _ he))
    simp only [verifyLoop, hp0]
    cases hv : p0.VerifyMAC tag data with
    | ok u =>
      simp only [Except.ok.injEq, true_iff]
      exact ⟨e0, List.mem_cons_self _ _, p0, hp0, by cases u; exact hv⟩
    | error msg =>
      rw [ihr]
      constructor
      · rintro ⟨e, he, p, hp, hvp⟩
        exact ⟨e, List.mem_cons_of_mem _ he, p, hp, hvp⟩
      · rintro ⟨e, he, p, hp, hvp⟩
        rcases List.mem_cons.mp he with rfl | he'
        · rw [hp0] at hp
          cases hp
          rw [hv] at hvp
          cases hvp
        · exact ⟨e, he', p, hp, hvp⟩

theorem verifyLoop_cases {entries : List Entry} {tag data : List Nat}
    (hM : ∀ e ∈ entries, (asMAC e.Primitive).isSome = true) :
    verifyLoop entries tag data = .ok true ∨ verifyLoop entries tag data = .ok false := by
  induction entries with
  | nil => right; rfl
  | cons e0 rest ih =>
    obtain ⟨p0, hp0⟩ := Option.isSome_iff_exists.mp (hM e0 (List.mem_cons_self _ _))
    simp only [verifyLoop, hp0]
    cases hv : p0.VerifyMAC tag data with
    | ok u => left; rfl
    | error msg => exact ih (fun e he => hM e (List.mem_cons_of_mem _ he))

theorem newWrappedMAC_ok_iff (ps : PrimitiveSet) (w : wrappedMAC) :
    newWrappedMAC ps = .ok w ↔
      ((asMAC ps.Primary.Primitive).isSome = true ∧ allMAC ps ∧ w = ⟨ps⟩) := by
  unfold newWrappedMAC
  by_cases h1 : (asMAC ps.Primary.Primitive).isNone
  · rw [if_pos h1]
    simp only [Option.isNone_iff_eq_none] at h1
    simp [h1]
  · rw [if_neg h1]
    by_cases h2 : ps.Entries.any (fun pr => pr.2.any (fun e => (asMAC e.Primitive).isNone)) = true
    · rw [if_pos h2]
      simp only [List.any_eq_true] at h2
      obtain ⟨pr, hpr, e, he, hbad⟩ := h2
      constructor
      · intro h; cases h
      · rintro ⟨-, hall, -⟩
        have := hall pr hpr e he
        rw [Option.isNone_iff_eq_none] at hbad
        rw [hbad] at this
        cases this
    · rw [if_neg h2]
      constructor
      · intro h
        cases h
        refine ⟨?_, ?_, rfl⟩
        · cases hs : asMAC ps.Primary.Primitive with
          | none => exact absurd (by rw [hs]; rfl) h1
          | some p => rfl
        · intro pr hpr e he
          cases hs : asMAC e.Primitive with
          | none =>
            exfalso
            apply h2
            simp only [List.any_eq_true]
            exact ⟨pr, hpr, e, he, by rw [hs]; rfl⟩
          | some p => rfl
      · rintro ⟨-, -, rfl⟩; rfl

theorem newWrappedMAC_ok_allMAC {ps : PrimitiveSet} {w : wrappedMAC}
    (hw : newWrappedMAC ps = .ok w) :
    (asMAC ps.Primary.Primitive).isSome = true ∧ allMAC ps ∧ w = ⟨ps⟩ :=
  (newWrappedMAC_ok_iff ps w).mp hw

theorem computeMAC_eq (ps : PrimitiveSet) (p : MAC) (flag : Bool) (data : List Nat)
    (hp : asMAC ps.Primary.Primitive = some p)
    (hgate : ¬(ps.Primary.PfxType = OutputPrefixType.LEGACY ∧ flag = false)) :
    wrappedMAC.ComputeMAC ⟨ps⟩ flag data =
      (match p.ComputeMAC data with
       | .ok t => .ok (ps.Primary.Pfx ++ t)
       | .error e => .error (.underlying e)) := by
  unfold wrappedMAC.ComputeMAC
  simp only [hp]
  rw [if_neg hgate]
  cases p.ComputeMAC data <;> rfl

theorem computeMAC_legacy_disabled (ps : PrimitiveSet) (p : MAC) (data : List Nat)
    (hp : asMAC ps.Primary.Primitive = some p)
    (hL : ps.Primary.PfxType = OutputPrefixType.LEGACY) :
    wrappedMAC.ComputeMAC ⟨ps⟩ false data = .error .legacyDisabled := by
  unfold wrappedMAC.ComputeMAC
  simp [hp, hL]

theorem verifyMAC_result_cases (ps : PrimitiveSet) (tag data : List Nat)
    (hM : allMAC ps) :
    wrappedMAC.VerifyMAC ⟨ps⟩ tag data = .ok () ∨
      wrappedMAC.VerifyMAC ⟨ps⟩ tag data = .error errInvalidMAC := by
  unfold wrappedMAC.VerifyMAC
  by_cases hlen : tag.length ≤ NonRawPfxSize
  · rw [if_pos hlen]; right; rfl
  · rw [if_neg hlen]
    rcases @verifyLoop_cases _ (tag.drop NonRawPfxSize) data
        (EntriesForPfx_allMAC hM (tag.take NonRawPfxSize)) with h1 | h1 <;> rw [h1]
    · left; rfl
    · rcases @verifyLoop_cases _ tag data
          (EntriesForPfx_allMAC hM RawPfx) with h2 | h2
      · rw [show ps.RawEntries = ps.EntriesForPfx RawPfx from rfl, h2]; left; rfl
      · rw [show ps.RawEntries = ps.EntriesForPfx RawPfx from rfl, h2]; right; rfl

theorem roundTrip_core (ps : PrimitiveSet) (p : MAC) (data t : List Nat)
    (hM : allMAC ps)
    (hp : asMAC ps.Primary.Primitive = some p)
    (hmem : ps.Primary ∈ ps.EntriesForPfx ps.Primary.Pfx)
    (hraw : ps.Primary.PfxType = OutputPrefixType.RAW → ps.Primary.Pfx = RawPfx)
    (hnonraw : ps.Primary.PfxType ≠ OutputPrefixType.RAW →
      ps.Primary.Pfx.length = NonRawPfxSize)
    (hlen : NonRawPfxSize < (ps.Primary.Pfx ++ t).length)
    (hver : p.VerifyMAC t data = .ok ()) :
    wrappedMAC.VerifyMAC ⟨ps⟩ (ps.Primary.Pfx ++ t) data = .ok () := by
  unfold wrappedMAC.VerifyMAC
  rw [if_neg (not_le.mpr hlen)]
  by_cases hR : ps.Primary.PfxType = OutputPrefixType.RAW
  · have hpfx0 : ps.Primary.Pfx = RawPfx := hraw hR
    rcases @verifyLoop_cases _ ((ps.Primary.Pfx ++ t).drop NonRawPfxSize) data
        (EntriesForPfx_allMAC hM ((ps.Primary.Pfx ++ t).take NonRawPfxSize)) with h1 | h1
    · rw [h1]
    · rw [h1]
      have hloop : verifyLoop ps.RawEntries (ps.Primary.Pfx ++ t) data = .ok true := by
        show verifyLoop (ps.EntriesForPfx RawPfx) (ps.Primary.Pfx ++ t) data = .ok true
        rw [verifyLoop_ok_iff (EntriesForPfx_allMAC hM RawPfx)]
        refine ⟨ps.Primary, ?_, p, hp, ?_⟩
        · show ps.Primary ∈ ps.EntriesForPfx RawPfx
          rw [← hpfx0]; exact hmem
        · rw [hpfx0]; exact hver
      rw [hloop]
  · have hplen : ps.Primary.Pfx.length = NonRawPfxSize := hnonraw hR
    have htake : (ps.Primary.Pfx ++ t).take NonRawPfxSize = ps.Primary.Pfx :=
      List.take_left' hplen
    have hdrop : (ps.Primary.Pfx ++ t).drop NonRawPfxSize = t :=
      List.drop_left' hplen
    have hloop : verifyLoop (ps.EntriesForPfx ((ps.Primary.Pfx ++ t).take NonRawPfxSize))
        ((ps.Primary.Pfx ++ t).drop NonRawPfxSize) data = .ok true := by
      rw [htake, hdrop, verifyLoop_ok_iff (EntriesForPfx_allMAC hM ps.Primary.Pfx)]
      exact ⟨ps.Primary, hmem, p, hp, hver⟩
    rw [hloop]

theorem computeMAC_ok_shape (ps : PrimitiveSet) (p : MAC) (flag : Bool)
    (data tag : List Nat)
    (hp : asMAC ps.Primary.Primitive = some p)
    (hcomp : wrappedMAC.ComputeMAC ⟨ps⟩ flag data = .ok tag) :
    ∃ t, p.ComputeMAC data = .ok t ∧ tag = ps.Primary.Pfx ++ t := by
  unfold wrappedMAC.ComputeMAC at hcomp
  simp only [hp] at hcomp
  by_cases hgate : ps.Primary.PfxType = OutputPrefixType.LEGACY ∧ flag = false
  · rw [if_pos hgate] at hcomp; cases hcomp
  · rw [if_neg hgate] at hcomp
    cases hc : p.ComputeMAC data with
    | ok t =>
      rw [hc] at hcomp
      cases hcomp
      exact ⟨t, rfl, rfl⟩
    | error e => rw [hc] at hcomp; cases hcomp

/-! ### Claims -/

/-- C1 (amended): for every constructed primitive set, every data `D` and
every tag successfully returned by `ComputeMAC(D)`, `VerifyMAC(tag, D)`
succeeds, regardless of the primary's prefix type, provided the produced
tag is longer than the fixed non-raw prefix size (the underlying tag is
nonempty for a prefixed primary, longer than the prefix size for a RAW
primary) and the underlying primitive verifies its own computed tags.
The hypotheses `hmem`, `hraw`, `hnonraw` are the primitive-set invariants:
the primary is registered in the prefix index under its own prefix, RAW
entries carry the empty prefix, and non-raw prefixes have the fixed width. -/
theorem c1_computeVerify_roundTrip (ps : PrimitiveSet) (w : wrappedMAC) (p : MAC)
    (flag : Bool) (data tag : List Nat)
    (hw : newWrappedMAC ps = .ok w)
    (hp : asMAC ps.Primary.Primitive = some p)
    (hmem : ps.Primary ∈ ps.EntriesForPfx ps.Primary.Pfx)
    (hraw : ps.Primary.PfxType = OutputPrefixType.RAW → ps.Primary.Pfx = RawPfx)
    (hnonraw : ps.Primary.PfxType ≠ OutputPrefixType.RAW →
      ps.Primary.Pfx.length = NonRawPfxSize)
    (hcomp : w.ComputeMAC flag data = .ok tag)
    (hlen : NonRawPfxSize < tag.length)
    (hsound : ∀ t, p.ComputeMAC data = .ok t → p.VerifyMAC t data = .ok ()) :
    w.VerifyMAC tag data = .ok () := by
  obtain ⟨-, hM, rfl⟩ := newWrappedMAC_ok_allMAC hw
  obtain ⟨t, hct, rfl⟩ := computeMAC_ok_shape ps p flag data tag hp hcomp
  exact roundTrip_core ps p data t hM hp hmem hraw hnonraw hlen (hsound t hct)

/-- C1 witness: the round trip at the concrete TINK-primary set, empty
data, produced tag `[1, 0, 0, 0, 2] ++ [9, 9]`. -/
theorem c1_computeVerify_roundTrip_witness :
    wrappedMAC.VerifyMAC ⟨tinkSet⟩ [1, 0, 0, 0, 2, 9, 9] [] = .ok () :=
  c1_computeVerify_roundTrip tinkSet ⟨tinkSet⟩ tinkMAC1 true [] [1, 0, 0, 0, 2, 9, 9]
    rfl rfl (List.Mem.head _) (by decide) (by decide) rfl (by decide)
    (fun t ht => by
      obtain rfl : ([9, 9] : List Nat) = t := Except.ok.inj ht
      rfl)

/-- C1 counterexample: the claim as stated fails on a constructed set with
a RAW primary whose underlying primitive emits a 1-byte tag. `ComputeMAC`
succeeds and returns `[7]`, the underlying primitive itself verifies that
tag, yet `VerifyMAC` rejects it with `errInvalidMAC` because the tag's
length is at most the fixed non-raw prefix size. -/
theorem c1_counterexample :
    newWrappedMAC rawOnlySet = .ok ⟨rawOnlySet⟩ ∧
    wrappedMAC.ComputeMAC ⟨rawOnlySet⟩ true [] = .ok [7] ∧
    rawMAC1.VerifyMAC [7] [] = .ok () ∧
    wrappedMAC.VerifyMAC ⟨rawOnlySet⟩ [7] [] = .error errInvalidMAC :=
  ⟨rfl, rfl, rfl, rfl⟩

/-- C2: for every constructed wrapper and every tag longer than the fixed
non-raw prefix size, `VerifyMAC` succeeds exactly when some entry
registered under the tag's fixed-size candidate prefix verifies the
truncated body, or some RAW entry verifies the full, untruncated tag
(the former phase first, falling back to the RAW phase, including when
the candidate prefix is unknown, in which case the prefixed phase is the
empty list of entries). -/
theorem c2_verify_structure (ps : PrimitiveSet) (w : wrappedMAC) (tag data : List Nat)
    (hw : newWrappedMAC ps = .ok w)
    (hlen : NonRawPfxSize < tag.length) :
    w.VerifyMAC tag data = .ok () ↔
      ((∃ e ∈ ps.EntriesForPfx (tag.take NonRawPfxSize), ∃ p,
          asMAC e.Primitive = some p ∧
          p.VerifyMAC (tag.drop NonRawPfxSize) data = .ok ()) ∨
       (∃ e ∈ ps.RawEntries, ∃ p,
          asMAC e.Primitive = some p ∧ p.VerifyMAC tag data = .ok ())) := by
  obtain ⟨-, hM, rfl⟩ := newWrappedMAC_ok_allMAC hw
  have hMp := EntriesForPfx_allMAC hM (tag.take NonRawPfxSize)
  have hMr := EntriesForPfx_allMAC hM RawPfx
  have hre : ps.RawEntries = ps.EntriesForPfx RawPfx := rfl
  unfold wrappedMAC.VerifyMAC
  rw [if_neg (not_le.mpr hlen)]
  rcases @verifyLoop_cases _ (tag.drop NonRawPfxSize) data hMp
    with h1 | h1 <;> rw [h1]
  · constructor
    · intro _
      exact Or.inl ((verifyLoop_ok_iff hMp).mp h1)
    · intro _
      rfl
  · rw [hre]
    rcases @verifyLoop_cases _ tag data hMr with h2 | h2 <;> rw [h2]
    · constructor
      · intro _
        exact Or.inr ((verifyLoop_ok_iff hMr).mp h2)
      · intro _
        rfl
    · constructor
      · intro h
        exact Except.noConfusion h
      · rintro (hex | hex)
        · rw [(verifyLoop_ok_iff hMp).mpr hex] at h1
          cases h1
        · rw [(verifyLoop_ok_iff hMr).mpr hex] at h2
          cases h2

/-- C2 witness: at the TINK set with the produced tag, the prefixed phase
verifies; the characterization yields success. -/
theorem c2_verify_structure_witness :
    wrappedMAC.VerifyMAC ⟨tinkSet⟩ [1, 0, 0, 0, 2, 9, 9] [] = .ok () ∧
    wrappedMAC.VerifyMAC ⟨rawOnlySet⟩ [7, 7, 7, 7, 7, 7] [] ≠ .ok () := by
  constructor
  · exact (c2_verify_structure tinkSet ⟨tinkSet⟩ [1, 0, 0, 0, 2, 9, 9] [] rfl
      (by decide)).mpr
      (Or.inl ⟨tinkEntry1, List.Mem.head _, tinkMAC1, rfl, rfl⟩)
  · intro h
    rcases (c2_verify_structure rawOnlySet ⟨rawOnlySet⟩ [7, 7, 7, 7, 7, 7] [] rfl
      (by decide)).mp h with hex | hex
    · obtain ⟨e, he, p, hp, hv⟩ := hex
      simp [PrimitiveSet.EntriesForPfx, findEntries, rawOnlySet, NonRawPfxSize] at he
    · obtain ⟨e, he, p, hp, hv⟩ := hex
      obtain rfl : e = rawEntry1 := by
        simpa [PrimitiveSet.RawEntries, PrimitiveSet.EntriesForPfx, RawPfx,
          findEntries, rawOnlySet] using he
      obtain rfl : rawMAC1 = p := Option.some.inj hp
      simp [rawMAC1] at hv

/-- C3: for a constructed wrapper whose primary is a MAC primitive and
whose legacy gate does not fire, `ComputeMAC` is exactly the underlying
primitive's computation with the primary's prefix bytes prepended on
success (empty prefix for RAW), and the underlying error propagated
unchanged on failure. -/
theorem c3_compute_shape (ps : PrimitiveSet) (w : wrappedMAC) (p : MAC)
    (flag : Bool) (data : List Nat)
    (hw : newWrappedMAC ps = .ok w)
    (hp : asMAC ps.Primary.Primitive = some p)
    (hgate : ¬(ps.Primary.PfxType = OutputPrefixType.LEGACY ∧ flag = false)) :
    w.ComputeMAC flag data =
      (match p.ComputeMAC data with
       | .ok t => .ok (ps.Primary.Pfx ++ t)
       | .error e => .error (.underlying e)) := by
  obtain ⟨-, -, rfl⟩ := newWrappedMAC_ok_allMAC hw
  exact computeMAC_eq ps p flag data hp hgate

/-- C3 witness: at the TINK set the produced tag is the prefix followed by
the underlying tag, and at a set whose primitive fails the underlying
error comes back unchanged. -/
theorem c3_compute_shape_witness :
    wrappedMAC.ComputeMAC ⟨tinkSet⟩ true [] = .ok [1, 0, 0, 0, 2, 9, 9] := by
  have h := c3_compute_shape tinkSet ⟨tinkSet⟩ tinkMAC1 true [] rfl rfl (by decide)
  exact h

/-- C4: the explicit legacy-gate error arises exactly when the primary's
prefix type is LEGACY and the gate is disabled; with the gate enabled the
same call succeeds (given a successful underlying computation) and the
produced tag verifies against the same keyset. -/
theorem c4_legacy_gate (ps : PrimitiveSet) (w : wrappedMAC) (p : MAC)
    (flag : Bool) (data t : List Nat)
    (hw : newWrappedMAC ps = .ok w)
    (hp : asMAC ps.Primary.Primitive = some p)
    (hmem : ps.Primary ∈ ps.EntriesForPfx ps.Primary.Pfx)
    (hplen : ps.Primary.PfxType = OutputPrefixType.LEGACY →
      ps.Primary.Pfx.length = NonRawPfxSize)
    (hct : p.ComputeMAC data = .ok t)
    (ht : t ≠ [])
    (hver : p.VerifyMAC t data = .ok ()) :
    (w.ComputeMAC flag data = .error .legacyDisabled ↔
      (ps.Primary.PfxType = OutputPrefixType.LEGACY ∧ flag = false)) ∧
    (ps.Primary.PfxType = OutputPrefixType.LEGACY →
      w.ComputeMAC true data = .ok (ps.Primary.Pfx ++ t) ∧
      w.VerifyMAC (ps.Primary.Pfx ++ t) data = .ok ()) := by
  obtain ⟨-, hM, rfl⟩ := newWrappedMAC_ok_allMAC hw
  constructor
  · constructor
    · intro h
      by_contra hgate
      rw [computeMAC_eq ps p flag data hp hgate] at h
      cases hc : p.ComputeMAC data with
      | ok t2 =>
        rw [hc] at h
        exact Except.noConfusion h
      | error e =>
        rw [hc] at h
        exact MacError.noConfusion (Except.error.inj h)
    · rintro ⟨hL, hf⟩
      subst hf
      exact computeMAC_legacy_disabled ps p data hp hL
  · intro hL
    have hcomp : wrappedMAC.ComputeMAC ⟨ps⟩ true data = .ok (ps.Primary.Pfx ++ t) := by
      rw [computeMAC_eq ps p true data hp (by simp), hct]
    refine ⟨hcomp, ?_⟩
    refine roundTrip_core ps p data t hM hp hmem ?_ ?_ ?_ hver
    · intro hRaw
      rw [hL] at hRaw
      exact OutputPrefixType.noConfusion hRaw
    · intro _
      exact hplen hL
    · rw [List.length_append, hplen hL]
      have hpos : 0 < t.length := List.length_pos.mpr ht
      omega

/-- C4 witness: at the LEGACY set, disabling the gate makes `ComputeMAC`
fail with the gate error, and with the gate enabled the produced tag
verifies. -/
theorem c4_legacy_gate_witness :
    wrappedMAC.ComputeMAC ⟨legacySet⟩ false [] = .error .legacyDisabled ∧
    wrappedMAC.VerifyMAC ⟨legacySet⟩ [0, 0, 0, 0, 3, 8, 8] [] = .ok () := by
  have h := c4_legacy_gate legacySet ⟨legacySet⟩ legacyMAC1 false [] [8, 8]
    rfl rfl (List.Mem.head _) (by decide) rfl (by decide) rfl
  exact ⟨h.1.mpr ⟨rfl, rfl⟩, (h.2 rfl).2⟩

/-- C5: every tag of length at most the fixed non-raw prefix size is
rejected with the generic invalid-tag error, for every primitive set —
including all-RAW sets — and independently of every key's primitive. -/
theorem c5_short_tag (ps : PrimitiveSet) (tag data : List Nat)
    (hlen : tag.length ≤ NonRawPfxSize) :
    wrappedMAC.VerifyMAC ⟨ps⟩ tag data = .error errInvalidMAC := by
  unfold wrappedMAC.VerifyMAC
  rw [if_pos hlen]

/-- C5 witness: a 5-byte tag is rejected on the all-RAW set, even though
its RAW primitive would accept a 1-byte body. -/
theorem c5_short_tag_witness :
    wrappedMAC.VerifyMAC ⟨rawOnlySet⟩ [1, 2, 3, 4, 5] [] = .error errInvalidMAC :=
  c5_short_tag rawOnlySet [1, 2, 3, 4, 5] [] (by decide)

/-- C6: for every constructed wrapper, `VerifyMAC` either succeeds or
returns the single package-level `errInvalidMAC` value — a too-short tag,
an unknown prefix, a known prefix with no verifying entry, and no
verifying raw entry all yield one and the same error value. -/
theorem c6_error_uniformity (ps : PrimitiveSet) (w : wrappedMAC)
    (tag data : List Nat)
    (hw : newWrappedMAC ps = .ok w) :
    w.VerifyMAC tag data = .ok () ∨ w.VerifyMAC tag data = .error errInvalidMAC := by
  obtain ⟨-, hM, rfl⟩ := newWrappedMAC_ok_allMAC hw
  exact verifyMAC_result_cases ps tag data hM

/-- C6 witness: the dichotomy at the all-RAW set on a corrupted long tag. -/
theorem c6_error_uniformity_witness :
    wrappedMAC.VerifyMAC ⟨rawOnlySet⟩ [9, 9, 9, 9, 9, 9] [] = .ok () ∨
    wrappedMAC.VerifyMAC ⟨rawOnlySet⟩ [9, 9, 9, 9, 9, 9] [] = .error errInvalidMAC :=
  c6_error_uniformity rawOnlySet ⟨rawOnlySet⟩ [9, 9, 9, 9, 9, 9] [] rfl

/-- C7: wrapping succeeds exactly when the primary and every entry in the
set expose the MAC capability, the returned wrapper wraps that very set,
and each kind of capability failure yields the corresponding construction
error. -/
theorem c7_construction (ps : PrimitiveSet) :
    (∀ w, newWrappedMAC ps = .ok w → w = ⟨ps⟩) ∧
    ((∃ w, newWrappedMAC ps = .ok w) ↔
      ((asMAC ps.Primary.Primitive).isSome = true ∧ allMAC ps)) ∧
    ((asMAC ps.Primary.Primitive).isSome = false →
      newWrappedMAC ps = .error MacError.notAMAC) ∧
    ((asMAC ps.Primary.Primitive).isSome = true ∧ ¬allMAC ps →
      newWrappedMAC ps = .error MacError.notAnMAC) := by
  refine ⟨?_, ?_, ?_, ?_⟩
  · intro w hw
    exact (newWrappedMAC_ok_allMAC hw).2.2
  · constructor
    · rintro ⟨w, hw⟩
      obtain ⟨h1, h2, -⟩ := newWrappedMAC_ok_allMAC hw
      exact ⟨h1, h2⟩
    · rintro ⟨h1, h2⟩
      exact ⟨⟨ps⟩, (newWrappedMAC_ok_iff ps ⟨ps⟩).mpr ⟨h1, h2, rfl⟩⟩
  · intro hs
    cases h : asMAC ps.Primary.Primitive with
    | none => simp [newWrappedMAC, h]
    | some p =>
      rw [h] at hs
      cases hs
  · rintro ⟨h1, h2⟩
    have hN : (asMAC ps.Primary.Primitive).isNone = false := by
      cases h : asMAC ps.Primary.Primitive with
      | none =>
        rw [h] at h1
        cases h1
      | some p => rfl
    have hA : ps.Entries.any (fun pr => pr.2.any (fun e => (asMAC e.Primitive).isNone)) = true := by
      simp only [List.any_eq_true]
      unfold allMAC at h2
      push_neg at h2
      obtain ⟨pr, hpr, e, he, hbad⟩ := h2
      refine ⟨pr, hpr, e, he, ?_⟩
      cases h : asMAC e.Primitive with
      | none => rfl
      | some p =>
        rw [h] at hbad
        exact absurd rfl hbad
    simp [newWrappedMAC, hN, hA]

/-- C7 witness: construction succeeds on the all-MAC RAW set and returns
the wrapper over it; construction fails with the capability error on a
set whose primary is not a MAC. -/
theorem c7_construction_witness :
    (∃ w, newWrappedMAC rawOnlySet = .ok w) ∧
    newWrappedMAC badSet = .error MacError.notAMAC :=
  ⟨(c7_construction rawOnlySet).2.1.mpr ⟨rfl, by decide⟩,
   (c7_construction badSet).2.2.1 rfl⟩

/-- C8: after a successful construction the per-call capability re-checks
are unreachable — `ComputeMAC` never returns the "not a MAC primitive"
error and `VerifyMAC` never returns the "not an MAC primitive" error, for
any flag value, tag and data. -/
theorem c8_capability_rechecks (ps : PrimitiveSet) (w : wrappedMAC)
    (hw : newWrappedMAC ps = .ok w) :
    (∀ flag data, w.ComputeMAC flag data ≠ .error MacError.notAMAC) ∧
    (∀ tag data, w.VerifyMAC tag data ≠ .error MacError.notAnMAC) := by
  obtain ⟨h1, hM, rfl⟩ := newWrappedMAC_ok_allMAC hw
  obtain ⟨p, hp⟩ := Option.isSome_iff_exists.mp h1
  constructor
  · intro flag data h
    by_cases hgate : ps.Primary.PfxType = OutputPrefixType.LEGACY ∧ flag = false
    · rw [hgate.2, computeMAC_legacy_disabled ps p data hp hgate.1] at h
      exact MacError.noConfusion (Except.error.inj h)
    · rw [computeMAC_eq ps p flag data hp hgate] at h
      cases hc : p.ComputeMAC data with
      | ok t =>
        rw [hc] at h
        exact Except.noConfusion h
      | error e =>
        rw [hc] at h
        exact MacError.noConfusion (Except.error.inj h)
  · intro tag data h
    rcases verifyMAC_result_cases ps tag data hM with hres | hres <;> rw [hres] at h
    · exact Except.noConfusion h
    · exact MacError.noConfusion (Except.error.inj h)

/-- C8 witness: the unreachability at the TINK set on sample inputs. -/
theorem c8_capability_rechecks_witness :
    wrappedMAC.ComputeMAC ⟨tinkSet⟩ true [] ≠ .error MacError.notAMAC ∧
    wrappedMAC.VerifyMAC ⟨tinkSet⟩ [1, 2, 3] [] ≠ .error MacError.notAnMAC := by
  have h := c8_capability_rechecks tinkSet ⟨tinkSet⟩ rfl
  exact ⟨h.1 true [], h.2 [1, 2, 3] []⟩

/-- C9: the `enable_compute_old_legacy_mac` flag defaults to `true`, so
with the default configuration `ComputeMAC` on a LEGACY-format primary
never fails on the gate check. -/
theorem c9_default_flag_enabled :
    enableComputeOldLegacyMacDefault = true ∧
    ∀ (w : wrappedMAC) (p : MAC) (data : List Nat),
      asMAC w.ps.Primary.Primitive = some p →
      w.ps.Primary.PfxType = OutputPrefixType.LEGACY →
      w.ComputeMAC enableComputeOldLegacyMacDefault data ≠
        .error MacError.legacyDisabled := by
  refine ⟨rfl, ?_⟩
  rintro ⟨ps⟩ p data hp - h
  have hg : ¬(ps.Primary.PfxType = OutputPrefixType.LEGACY ∧
      enableComputeOldLegacyMacDefault = false) := by
    rintro ⟨-, hf⟩
    exact absurd hf (by decide)
  rw [computeMAC_eq ps p enableComputeOldLegacyMacDefault data hp hg] at h
  cases hc : p.ComputeMAC data with
  | ok t =>
    rw [hc] at h
    exact Except.noConfusion h
  | error e =>
    rw [hc] at h
    exact MacError.noConfusion (Except.error.inj h)

/-- C9 witness: at the LEGACY set with the default flag, the gate error
does not occur. -/
theorem c9_default_flag_enabled_witness :
    wrappedMAC.ComputeMAC ⟨legacySet⟩ enableComputeOldLegacyMacDefault [] ≠
      .error MacError.legacyDisabled :=
  c9_default_flag_enabled.2 ⟨legacySet⟩ legacyMAC1 [] rfl rfl

/-- C10: with the gate disabled and a LEGACY primary (of MAC capability),
`ComputeMAC` returns the gate error, and does so for every behaviour of
the underlying primitive — in particular for any replacement primitive —
so the underlying tag computation is never invoked. -/
theorem c10_gate_short_circuit (ps : PrimitiveSet) (p : MAC) (data : List Nat)
    (hp : asMAC ps.Primary.Primitive = some p)
    (hL : ps.Primary.PfxType = OutputPrefixType.LEGACY) :
    wrappedMAC.ComputeMAC ⟨ps⟩ false data = .error MacError.legacyDisabled ∧
    ∀ q : MAC,
      wrappedMAC.ComputeMAC
        ⟨{ ps with Primary := { ps.Primary with Primitive := .mac q } }⟩
        false data = .error MacError.legacyDisabled := by
  refine ⟨computeMAC_legacy_disabled ps p data hp hL, ?_⟩
  intro q
  exact computeMAC_legacy_disabled _ q data rfl hL

/-- C10 witness: the gate short-circuit at the LEGACY set. -/
theorem c10_gate_short_circuit_witness :
    wrappedMAC.ComputeMAC ⟨legacySet⟩ false [] = .error MacError.legacyDisabled :=
  (c10_gate_short_circuit legacySet legacyMAC1 [] rfl rfl).1
